import Mathlib

-- Verification of the Range component of mathjs (src/type/Range.js).
-- JavaScript numbers are embedded as exact rationals (ℚ) for the finite case;
-- the parsing pipeline additionally models the special values NaN and ±Infinity,
-- which JS string-to-number conversion can produce before a Range is built.

namespace Mathjs

-- Batteries marks the rational arithmetic operations irreducible, which
-- blocks evaluation of the executable model; restore default reducibility
-- for this development.
attribute [local semireducible] Rat.add Rat.mul Rat.sub Rat.inv

/-- A JavaScript number as it can appear in the parsing pipeline:
not-a-number, positive or negative infinity, or a finite value
(embedded as an exact rational). -/
inductive JsNum where
  | nan : JsNum
  | posInf : JsNum
  | negInf : JsNum
  | fin (q : ℚ) : JsNum
deriving DecidableEq

/-- The JS `isNaN` predicate on numbers. -/
def JsNum.isNaN : JsNum → Bool
  | .nan => true
  | _ => false

/-- A JavaScript value, as far as the Range component inspects one:
a number, a string (embedded as a list of characters), a boolean,
`null` or `undefined`. -/
inductive JsValue where
  | num (n : JsNum) : JsValue
  | str (s : List Char) : JsValue
  | boolean (b : Bool) : JsValue
  | null : JsValue
  | undefined : JsValue
deriving DecidableEq

/-- JS `x == null`, true exactly for `null` and `undefined`. -/
def JsValue.isNullish : JsValue → Bool
  | .null => true
  | .undefined => true
  | _ => false

/-- Modelled from the spec: the `isNumber` utility used by the Range
constructor (not included under src/); a value "must be a numeric value",
i.e. of number type. -/
def isNumber : JsValue → Bool
  | .num _ => true
  | _ => false

/-- Extract the number stored in a JS value; only used under an
`isNumber` guard, so the non-number fallback is never reached. -/
def jsNumOf : JsValue → JsNum
  | .num n => n
  | _ => .nan

-- ### The platform string→number conversion (`Number(str)`)

/-- JS whitespace characters recognised when trimming a numeric string. -/
def isWs (c : Char) : Bool :=
  c = ' ' || c = '\t' || c = '\n' || c = '\r'

/-- Trim whitespace from both ends of a string. -/
def trimWs (s : List Char) : List Char :=
  ((s.dropWhile isWs).reverse.dropWhile isWs).reverse

/-- Numeric value of a decimal digit character. -/
def digitVal (c : Char) : ℕ := c.toNat - '0'.toNat

/-- Value of a string of decimal digits. -/
def digitsToNat (ds : List Char) : ℕ :=
  ds.foldl (fun a c => 10 * a + digitVal c) 0

/-- Hexadecimal digit test. -/
def isHexDigit (c : Char) : Bool :=
  c.isDigit || ('a' ≤ c && c ≤ 'f') || ('A' ≤ c && c ≤ 'F')

/-- Numeric value of a hexadecimal digit character. -/
def hexVal (c : Char) : ℕ :=
  if c.isDigit then digitVal c
  else if 'a' ≤ c && c ≤ 'f' then c.toNat - 'a'.toNat + 10
  else c.toNat - 'A'.toNat + 10

/-- Value of a string of hexadecimal digits. -/
def hexToNat (ds : List Char) : ℕ :=
  ds.foldl (fun a c => 16 * a + hexVal c) 0

/-- Parse the optional exponent part of a decimal numeral: either the
end of the string, or `e`/`E`, an optional sign and at least one digit
consuming the rest of the string. -/
def expPart (base : ℚ) (s : List Char) : Option ℚ :=
  match s with
  | [] => some base
  | c :: rest =>
    if c = 'e' || c = 'E' then
      let signRest : Bool × List Char :=
        match rest with
        | '+' :: t => (false, t)
        | '-' :: t => (true, t)
        | t => (false, t)
      let ds := signRest.2.takeWhile Char.isDigit
      let rest3 := signRest.2.dropWhile Char.isDigit
      if ds = [] ∨ rest3 ≠ [] then none
      else
        some (if signRest.1 then base / ((10 ^ digitsToNat ds : ℕ) : ℚ)
          else base * ((10 ^ digitsToNat ds : ℕ) : ℚ))
    else none

/-- Parse an unsigned decimal numeral: digits, an optional fraction part
(with at least one digit somewhere around the point), and an optional
exponent part. -/
def parseUnsignedDec (s : List Char) : Option ℚ :=
  let ipart := s.takeWhile Char.isDigit
  let rest1 := s.dropWhile Char.isDigit
  match rest1 with
  | '.' :: rest2 =>
    let fpart := rest2.takeWhile Char.isDigit
    let rest3 := rest2.dropWhile Char.isDigit
    if ipart = [] ∧ fpart = [] then none
    else expPart ((digitsToNat ipart : ℚ) +
      (digitsToNat fpart : ℚ) / ((10 ^ fpart.length : ℕ) : ℚ)) rest3
  | _ =>
    if ipart = [] then none
    else expPart (digitsToNat ipart : ℚ) rest1

/-- Modelled from the spec: the platform general string→number conversion
(JS `Number(str)`) used by `Range.parse`, which is not part of src/:
whitespace-trimmed, the empty string converts to 0, signed `Infinity` is
accepted, unsigned hexadecimal literals `0x…` are accepted, and otherwise
a signed decimal numeral with optional fraction and scientific-notation
exponent; anything else converts to NaN. -/
def toNumber (s : List Char) : JsNum :=
  let t := trimWs s
  if t = [] then .fin 0
  else
    match t with
    | '0' :: 'x' :: rest =>
      if rest ≠ [] ∧ rest.all isHexDigit then .fin (hexToNat rest : ℚ) else .nan
    | '0' :: 'X' :: rest =>
      if rest ≠ [] ∧ rest.all isHexDigit then .fin (hexToNat rest : ℚ) else .nan
    | _ =>
      let signRest : Bool × List Char :=
        match t with
        | '+' :: u => (false, u)
        | '-' :: u => (true, u)
        | u => (false, u)
      if signRest.2 = "Infinity".toList then
        (if signRest.1 then .negInf else .posInf)
      else
        match parseUnsignedDec signRest.2 with
        | some q => .fin (if signRest.1 then -q else q)
        | none => .nan

/-- JS `str.split(':')`: the list of colon-separated tokens; the empty
string yields one empty token. -/
def splitOnColon : List Char → List (List Char)
  | [] => [[]]
  | c :: rest =>
    if c = ':' then [] :: splitOnColon rest
    else
      match splitOnColon rest with
      | [] => [[c]]
      | t :: ts => (c :: t) :: ts

-- ### The Range data type

/-- A Range with (finite) numeric fields, as stored by the constructor:
`start`, `step` and `end`. -/
structure Range where
  start : ℚ
  step : ℚ
  «end» : ℚ
deriving DecidableEq

/-- A Range exactly as `new Range` constructs it, before any finiteness
assumption: the three stored JS numbers. -/
structure RangeJs where
  start : JsNum
  step : JsNum
  «end» : JsNum
deriving DecidableEq

/-- The Ranges whose fields are all finite numbers, read back as a
rational-field Range. -/
def RangeJs.toRange : RangeJs → Option Range
  | ⟨.fin a, .fin s, .fin e⟩ => some ⟨a, s, e⟩
  | _ => none

/-- The `Range(start, step, end)` constructor body: each provided
(non-nullish) argument must be a number, checked in source order
(start, then end, then step), and omitted arguments default to
start 0, end 0, step 1. -/
def Range.ctor (start step «end» : JsValue) : Except String RangeJs :=
  if !start.isNullish && !isNumber start then
    .error "Parameter start must be a number"
  else if !JsValue.isNullish «end» && !isNumber «end» then
    .error "Parameter end must be a number"
  else if !step.isNullish && !isNumber step then
    .error "Parameter step must be a number"
  else
    .ok { start := if start.isNullish then .fin 0 else jsNumOf start
          step := if step.isNullish then .fin 1 else jsNumOf step
          «end» := if JsValue.isNullish «end» then .fin 0 else jsNumOf «end» }

/-- `Range.parse(str)`: `null` for non-strings; split the string on `:`,
convert every token with the platform conversion, reject when any token
is NaN, then build a Range from exactly 2 tokens (step defaulting to 1)
or exactly 3 tokens, and `null` for any other token count. -/
def Range.parse (v : JsValue) : Option RangeJs :=
  match v with
  | .str s =>
    let args := splitOnColon s
    let nums := args.map toNumber
    if nums.any (fun n => n.isNaN) then none
    else
      match nums with
      | [a, b] => (Range.ctor (.num a) (.num (.fin 1)) (.num b)).toOption
      | [a, b, c] => (Range.ctor (.num a) (.num b) (.num c)).toOption
      | _ => none
  | _ => none

example : toNumber "2".toList = .fin 2 := by decide
example : toNumber "".toList = .fin 0 := by decide
example : toNumber " 2.5e1 ".toList = .fin 25 := by decide
example : toNumber "Infinity".toList = .posInf := by decide
example : toNumber "-Infinity".toList = .negInf := by decide
example : toNumber "abc".toList = .nan := by decide
example : toNumber "0x10".toList = .fin 16 := by decide
example : toNumber ".5".toList = .fin (1/2) := by decide
example : splitOnColon "2:5".toList = ["2".toList, "5".toList] := by decide
example : splitOnColon ":".toList = [[], []] := by decide
example : Range.parse (.str "2:5".toList) = some ⟨.fin 2, .fin 1, .fin 5⟩ := by decide
example : Range.parse (.str "1:2:3:4".toList) = none := by decide
example : Range.parse (.str "Infinity:5".toList) = some ⟨.posInf, .fin 1, .fin 5⟩ := by decide
example : Range.parse (.num (.fin 3)) = none := by decide
example : ((0:ℚ) < 1) := by decide
example : toNumber "-2.5".toList = .fin (-(5/2)) := by decide

-- ### Size computation

/-- Modelled from the spec: the generic sign collaborator `math.sign`
(not included under src/): `+1` for positive, `-1` for negative, `0` for
exactly zero. -/
def sign (x : ℚ) : ℚ :=
  if 0 < x then 1 else if x < 0 then -1 else 0

/-- `Range.prototype.size`: with `diff = end - start`, length
`floor(diff/step) + 1` when `sign(step) == sign(diff)`, else 1 when
`diff == 0`, else 0. Inside the first branch `step = 0` forces
`diff = 0`, and the JS division `0/0` yields NaN, modelled as `none`;
the final `if (isNaN(len)) len = 0` normalization is `Option.getD 0`.
Returned as the one-element size array. -/
def Range.size (r : Range) : List ℤ :=
  let diff := r.«end» - r.start
  let len : Option ℤ :=
    if sign r.step = sign diff then
      if r.step = 0 then none
      else some (⌊diff / r.step⌋ + 1)
    else if diff = 0 then some 1
    else some 0
  [len.getD 0]

-- ### The traversal primitive

/-- The ascending loop of `Range.prototype.forEach`:
`while (x <= end) { callback(x, i, this); x += step; i++ }`, recorded as
the list of `(x, i)` arguments passed to the callback. The `0 < step`
conjunct is the guard of the enclosing `if (step > 0)` branch, which
also makes the loop terminate. -/
def loopUp (ed step x : ℚ) (i : ℕ) : List (ℚ × ℕ) :=
  if h : 0 < step ∧ x ≤ ed then
    (x, i) :: loopUp ed step (x + step) (i + 1)
  else []
termination_by (⌊(ed - x) / step⌋ + 1).toNat
decreasing_by
  obtain ⟨hs, hx⟩ := h
  have hkey : (ed - (x + step)) / step = (ed - x) / step - 1 := by
    rw [show ed - (x + step) = (ed - x) - step by ring, sub_div,
      div_self (ne_of_gt hs)]
  have h2 : ⌊(ed - (x + step)) / step⌋ = ⌊(ed - x) / step⌋ - 1 := by
    rw [hkey, Int.floor_sub_one]
  have h3 : (0:ℤ) ≤ ⌊(ed - x) / step⌋ :=
    Int.floor_nonneg.mpr (div_nonneg (by linarith) hs.le)
  omega

/-- The descending loop of `Range.prototype.forEach`:
`while (x >= end) { callback(x, i, this); x += step; i++ }` under the
`step < 0` branch guard. -/
def loopDown (ed step x : ℚ) (i : ℕ) : List (ℚ × ℕ) :=
  if h : step < 0 ∧ ed ≤ x then
    (x, i) :: loopDown ed step (x + step) (i + 1)
  else []
termination_by (⌊(x - ed) / (-step)⌋ + 1).toNat
decreasing_by
  obtain ⟨hs, hx⟩ := h
  have hkey : (x + step - ed) / (-step) = (x - ed) / (-step) - 1 := by
    rw [show x + step - ed = (x - ed) - (-step) by ring, sub_div,
      div_self (by linarith)]
  have h2 : ⌊(x + step - ed) / (-step)⌋ = ⌊(x - ed) / (-step)⌋ - 1 := by
    rw [hkey, Int.floor_sub_one]
  have h3 : (0:ℤ) ≤ ⌊(x - ed) / (-step)⌋ :=
    Int.floor_nonneg.mpr (div_nonneg (by linarith) (by linarith))
  omega

/-- The sequence of `(value, index)` argument pairs with which
`Range.prototype.forEach` invokes its callback: the ascending loop when
`step > 0`, the descending loop when `step < 0`, and no invocation at
all when `step == 0` (neither branch is taken). -/
def Range.forEachCalls (r : Range) : List (ℚ × ℕ) :=
  if 0 < r.step then loopUp r.«end» r.step r.start 0
  else if r.step < 0 then loopDown r.«end» r.step r.start 0
  else []

/-- `Range.prototype.forEach(callback)`: the callback receives the
current value, its zero-based index, and the Range instance being
traversed; the traversal is recorded as the list of callback results
in invocation order. -/
def Range.forEach {α : Type} (r : Range) (f : ℚ → ℕ → Range → α) : List α :=
  r.forEachCalls.map fun p => f p.1 p.2 r

/-- `Range.prototype.map(callback)`: `array[index] = callback(value,
index, obj)` over the traversal; indices are consecutive from 0, so the
result is the list of callback results. -/
def Range.map {α : Type} (r : Range) (f : ℚ → ℕ → Range → α) : List α :=
  r.forEach fun value index obj => f value index obj

/-- `Range.prototype.toArray`: `array[index] = value` over the
traversal. -/
def Range.toArray (r : Range) : List ℚ :=
  r.forEach fun value _ _ => value

/-- `Range.prototype.toVector`, an alias of `toArray`. -/
def Range.toVector (r : Range) : List ℚ :=
  r.toArray

/-- `Range.prototype.isVector`: always true. -/
def Range.isVector (_ : Range) : Bool := true

/-- `Range.prototype.toScalar`: the sole element when `toArray()` has
exactly one element, else null. -/
def Range.toScalar (r : Range) : Option ℚ :=
  match r.toArray with
  | [x] => some x
  | _ => none

/-- `Range.prototype.isScalar`: whether `size()[0] == 1`. -/
def Range.isScalar (r : Range) : Bool :=
  r.size.headI == 1

/-- `Range.prototype.valueOf`: the realized array. -/
def Range.valueOf (r : Range) : List ℚ :=
  r.toArray

/-- `Range.prototype.clone`: a new Range with the same fields. -/
def Range.clone (r : Range) : Range :=
  ⟨r.start, r.step, r.«end»⟩

-- ### String rendering

/-- Decimal digit string of a natural number. -/
def natDigits (n : ℕ) : List Char := Nat.toDigits 10 n

/-- Drop trailing zero digits of a fraction part. -/
def trimZeros (l : List Char) : List Char :=
  (l.reverse.dropWhile (fun c => c = '0')).reverse

/-- Left-pad a digit string with zeros to a given width. -/
def padTo (k : ℕ) (l : List Char) : List Char :=
  List.replicate (k - l.length) '0' ++ l

/-- Modelled from the spec: the number-formatting collaborator
`math.format` used by `toString` (not included under src/). The spec
only requires some deterministic formatter producing a unique, parseable
text form; this one renders the integer part in decimal followed by up
to twenty decimal fraction digits (exact whenever the denominator
divides 10^20, which covers every numeral the round-trip property
quantifies over). -/
def format (q : ℚ) : List Char :=
  let n := q.num.natAbs
  let d := q.den
  let ip := n / d
  let scaled := n % d * 10 ^ 20 / d
  let core := natDigits ip ++
    (if scaled = 0 then [] else '.' :: trimZeros (padTo 20 (natDigits scaled)))
  if q.num < 0 then '-' :: core else core

/-- `Range.prototype.toString`: the formatted start, then
`':' + formattedStep` only when `step != 1`, then `':' + formattedEnd`. -/
def Range.toString (r : Range) : List Char :=
  format r.start ++ (if r.step ≠ 1 then ':' :: format r.step else []) ++
    ':' :: format r.«end»

example : Range.size ⟨2, 1, 5⟩ = [4] := by decide
example : Range.size ⟨1, 0, 1⟩ = [0] := by decide
example : Range.size ⟨5, 1, 5⟩ = [1] := by decide
example : Range.size ⟨5, 0, 7⟩ = [0] := by decide
example : Range.size ⟨2, -1, -2⟩ = [5] := by decide
example : (⟨2, 0, 2⟩ : Range).isScalar = false := by decide
example : (⟨2, 0, 2⟩ : Range).toScalar = none := by decide
example : format 2 = ['2'] := by decide
example : format (1/5 : ℚ) = "0.2".toList := by decide
example : format (-(3/2) : ℚ) = "-1.5".toList := by decide
example : (⟨2, 1, 5⟩ : Range).toString = "2:5".toList := by decide
example : (⟨0, 1/5, 1⟩ : Range).toString = "0:0.2:1".toList := by decide

-- ### Closed forms for the traversal loops

lemma loopUp_closed (ed step : ℚ) (hs : 0 < step) :
    ∀ (n : ℕ) (x : ℚ) (i : ℕ), (⌊(ed - x) / step⌋ + 1).toNat = n →
      loopUp ed step x i = (List.range n).map fun k : ℕ => (x + (k : ℚ) * step, i + k) := by
  intro n
  induction n with
  | zero =>
    intro x i hn
    have hD : ¬ x ≤ ed := by
      intro hle
      have h0 : (0:ℤ) ≤ ⌊(ed - x) / step⌋ :=
        Int.floor_nonneg.mpr (div_nonneg (by linarith) hs.le)
      omega
    rw [loopUp.eq_def]
    simp [hD]
  | succ n ih =>
    intro x i hn
    have h0 : (0:ℤ) ≤ ⌊(ed - x) / step⌋ := by omega
    have hD0 : (0:ℚ) ≤ (ed - x) / step := Int.floor_nonneg.mp h0
    have hx : x ≤ ed := by
      have h1 : (0:ℚ) ≤ (ed - x) / step * step := mul_nonneg hD0 hs.le
      rw [div_mul_cancel₀ _ (ne_of_gt hs)] at h1
      linarith
    rw [loopUp.eq_def, dif_pos ⟨hs, hx⟩]
    have h2 : ⌊(ed - (x + step)) / step⌋ = ⌊(ed - x) / step⌋ - 1 := by
      rw [show ed - (x + step) = (ed - x) - step by ring, sub_div,
        div_self (ne_of_gt hs), Int.floor_sub_one]
    have hn' : (⌊(ed - (x + step)) / step⌋ + 1).toNat = n := by omega
    rw [ih (x + step) (i + 1) hn', List.range_succ_eq_map, List.map_cons,
      List.map_map]
    congr 1
    · simp
    · apply List.map_congr_left
      intro k _
      simp only [Function.comp_apply]
      refine Prod.ext ?_ ?_
      · push_cast
        ring
      · simp
        omega

lemma loopDown_closed (ed step : ℚ) (hs : step < 0) :
    ∀ (n : ℕ) (x : ℚ) (i : ℕ), (⌊(x - ed) / (-step)⌋ + 1).toNat = n →
      loopDown ed step x i = (List.range n).map fun k : ℕ => (x + (k : ℚ) * step, i + k) := by
  intro n
  induction n with
  | zero =>
    intro x i hn
    have hD : ¬ ed ≤ x := by
      intro hle
      have h0 : (0:ℤ) ≤ ⌊(x - ed) / (-step)⌋ :=
        Int.floor_nonneg.mpr (div_nonneg (by linarith) (by linarith))
      omega
    rw [loopDown.eq_def]
    simp [hD]
  | succ n ih =>
    intro x i hn
    have h0 : (0:ℤ) ≤ ⌊(x - ed) / (-step)⌋ := by omega
    have hD0 : (0:ℚ) ≤ (x - ed) / (-step) := Int.floor_nonneg.mp h0
    have hx : ed ≤ x := by
      have h1 : (0:ℚ) ≤ (x - ed) / (-step) * (-step) :=
        mul_nonneg hD0 (by linarith)
      rw [div_mul_cancel₀ _ (by linarith : (-step) ≠ 0)] at h1
      linarith
    rw [loopDown.eq_def, dif_pos ⟨hs, hx⟩]
    have h2 : ⌊(x + step - ed) / (-step)⌋ = ⌊(x - ed) / (-step)⌋ - 1 := by
      rw [show x + step - ed = (x - ed) - (-step) by ring, sub_div,
        div_self (by linarith : (-step) ≠ 0), Int.floor_sub_one]
    have hn' : (⌊(x + step - ed) / (-step)⌋ + 1).toNat = n := by omega
    rw [ih (x + step) (i + 1) hn', List.range_succ_eq_map, List.map_cons,
      List.map_map]
    congr 1
    · simp
    · apply List.map_congr_left
      intro k _
      simp only [Function.comp_apply]
      refine Prod.ext ?_ ?_
      · push_cast
        ring
      · simp
        omega

lemma forEachCalls_zero (r : Range) (h : r.step = 0) : r.forEachCalls = [] := by
  simp [Range.forEachCalls, h]

lemma forEachCalls_pos (r : Range) (h : 0 < r.step) :
    r.forEachCalls =
      (List.range (⌊(r.«end» - r.start) / r.step⌋ + 1).toNat).map
        fun k : ℕ => (r.start + (k : ℚ) * r.step, k) := by
  unfold Range.forEachCalls
  rw [if_pos h, loopUp_closed _ _ h _ _ _ rfl]
  simp

lemma forEachCalls_neg (r : Range) (h : r.step < 0) :
    r.forEachCalls =
      (List.range (⌊(r.«end» - r.start) / r.step⌋ + 1).toNat).map
        fun k : ℕ => (r.start + (k : ℚ) * r.step, k) := by
  unfold Range.forEachCalls
  rw [if_neg (by linarith), if_pos h, loopDown_closed _ _ h _ _ _ rfl]
  rw [show (r.start - r.«end») / (-r.step) = (r.«end» - r.start) / r.step by
    rw [show r.start - r.«end» = -(r.«end» - r.start) by ring, neg_div_neg_eq]]
  simp

-- ### Bound facts about the traversal guards

lemma guard_holds_pos (r : Range) (h : 0 < r.step) :
    ∀ k < (⌊(r.«end» - r.start) / r.step⌋ + 1).toNat,
      r.start + (k : ℚ) * r.step ≤ r.«end» := by
  intro k hk
  have h1 : (k : ℤ) ≤ ⌊(r.«end» - r.start) / r.step⌋ := by omega
  have h2 : ((k : ℤ) : ℚ) ≤ (r.«end» - r.start) / r.step := Int.le_floor.mp h1
  rw [le_div_iff₀ h] at h2
  push_cast at h2
  linarith

lemma guard_fails_pos (r : Range) (h : 0 < r.step) :
    ¬ (r.start + ((⌊(r.«end» - r.start) / r.step⌋ + 1).toNat : ℚ) * r.step ≤
        r.«end») := by
  intro hcon
  by_cases h0 : 0 ≤ ⌊(r.«end» - r.start) / r.step⌋
  · have hn : (((⌊(r.«end» - r.start) / r.step⌋ + 1).toNat : ℤ) : ℚ) =
        ((⌊(r.«end» - r.start) / r.step⌋ : ℚ) + 1) := by
      rw [Int.toNat_of_nonneg (by omega)]
      push_cast
      ring
    have hlt : (r.«end» - r.start) / r.step <
        (⌊(r.«end» - r.start) / r.step⌋ : ℚ) + 1 := Int.lt_floor_add_one _
    rw [div_lt_iff₀ h] at hlt
    have hcon' : ((⌊(r.«end» - r.start) / r.step⌋ : ℚ) + 1) * r.step ≤
        r.«end» - r.start := by
      rw [← hn]
      push_cast at hcon ⊢
      linarith
    linarith
  · have hz : (⌊(r.«end» - r.start) / r.step⌋ + 1).toNat = 0 := by omega
    rw [hz] at hcon
    push_cast at hcon
    have hle : r.start ≤ r.«end» := by linarith
    exact h0 (Int.floor_nonneg.mpr (div_nonneg (by linarith) h.le))

lemma guard_holds_neg (r : Range) (h : r.step < 0) :
    ∀ k < (⌊(r.«end» - r.start) / r.step⌋ + 1).toNat,
      r.«end» ≤ r.start + (k : ℚ) * r.step := by
  intro k hk
  have h1 : (k : ℤ) ≤ ⌊(r.«end» - r.start) / r.step⌋ := by omega
  have h2 : ((k : ℤ) : ℚ) ≤ (r.«end» - r.start) / r.step := Int.le_floor.mp h1
  rw [le_div_iff_of_neg h] at h2
  push_cast at h2
  linarith

lemma guard_fails_neg (r : Range) (h : r.step < 0) :
    ¬ (r.«end» ≤
        r.start + ((⌊(r.«end» - r.start) / r.step⌋ + 1).toNat : ℚ) * r.step) := by
  intro hcon
  by_cases h0 : 0 ≤ ⌊(r.«end» - r.start) / r.step⌋
  · have hn : (((⌊(r.«end» - r.start) / r.step⌋ + 1).toNat : ℤ) : ℚ) =
        ((⌊(r.«end» - r.start) / r.step⌋ : ℚ) + 1) := by
      rw [Int.toNat_of_nonneg (by omega)]
      push_cast
      ring
    have hlt : (r.«end» - r.start) / r.step <
        (⌊(r.«end» - r.start) / r.step⌋ : ℚ) + 1 := Int.lt_floor_add_one _
    rw [div_lt_iff_of_neg h] at hlt
    have hcon' : r.«end» - r.start ≤
        ((⌊(r.«end» - r.start) / r.step⌋ : ℚ) + 1) * r.step := by
      rw [← hn]
      push_cast at hcon ⊢
      linarith
    linarith
  · have hz : (⌊(r.«end» - r.start) / r.step⌋ + 1).toNat = 0 := by omega
    rw [hz] at hcon
    push_cast at hcon
    have hle : r.«end» ≤ r.start := by linarith
    refine h0 (Int.floor_nonneg.mpr ?_)
    rw [show (r.«end» - r.start) / r.step =
      (r.start - r.«end») / (-r.step) by
        rw [show r.start - r.«end» = -(r.«end» - r.start) by ring, neg_div_neg_eq]]
    exact div_nonneg (by linarith) (by linarith)

-- ### The size computation, flattened

lemma size_eq (r : Range) :
    r.size = [if sign r.step = sign (r.«end» - r.start) then
        (if r.step = 0 then 0 else ⌊(r.«end» - r.start) / r.step⌋ + 1)
      else if r.«end» - r.start = 0 then 1 else 0] := by
  simp only [Range.size]
  split_ifs <;> rfl

lemma sign_of_pos {x : ℚ} (h : 0 < x) : sign x = 1 := by
  simp [sign, h]

lemma sign_of_neg {x : ℚ} (h : x < 0) : sign x = -1 := by
  rw [sign, if_neg (by linarith), if_pos h]

lemma sign_of_zero : sign 0 = 0 := by
  norm_num [sign]

lemma div_nonneg_of_both_nonpos {a b : ℚ} (ha : a ≤ 0) (hb : b < 0) :
    0 ≤ a / b := by
  rw [show a / b = -a / -b by rw [neg_div_neg_eq]]
  exact div_nonneg (by linarith) (by linarith)

-- ### Claim C1

/-- Claim C1 is false as stated: it includes the case `step = 0` with
`start = end` under the `length = 1` clause, but that case satisfies
`sign(step) == sign(diff)` (both 0), so the code computes
`floor(0/0) + 1 = NaN`, which the NaN guard normalizes to 0: the size of
the range `1:0:1` is `[0]`, not `[1]`. -/
theorem claim1_counterexample :
    Range.size ⟨1, 0, 1⟩ = [0] ∧ Range.size ⟨1, 0, 1⟩ ≠ [1] := by
  decide

/-- Claim C1 (amended): for every Range with numeric fields, `size()`
returns `[len]` where, with `diff = end - start`:
`len = floor(diff/step) + 1` when `sign(step) == sign(diff)` and
`step ≠ 0`; `len = 0` when `step = 0` and `diff = 0` (the signs agree
but `0/0` is NaN, normalized to 0); otherwise `len = 1` when `diff = 0`;
otherwise `len = 0`. -/
theorem claim1_size (r : Range) :
    (sign r.step = sign (r.«end» - r.start) → r.step ≠ 0 →
      r.size = [⌊(r.«end» - r.start) / r.step⌋ + 1]) ∧
    (r.step = 0 → r.«end» - r.start = 0 → r.size = [0]) ∧
    (sign r.step ≠ sign (r.«end» - r.start) → r.«end» - r.start = 0 →
      r.size = [1]) ∧
    (sign r.step ≠ sign (r.«end» - r.start) → r.«end» - r.start ≠ 0 →
      r.size = [0]) := by
  refine ⟨?_, ?_, ?_, ?_⟩
  · intro hs h0
    rw [size_eq, if_pos hs, if_neg h0]
  · intro h0 hd
    rw [size_eq, if_pos (by rw [h0, hd]), if_pos h0]
  · intro hs hd
    rw [size_eq, if_neg hs, if_pos hd]
  · intro hs hd
    rw [size_eq, if_neg hs, if_neg hd]

/-- Witness for Claim C1's amended theorem, at the ranges `2:1:5`,
`3:0:3`, `5:1:5` and `5:0:7`, one per case. -/
theorem claim1_size_witness :
    Range.size ⟨2, 1, 5⟩ = [⌊((5:ℚ) - 2) / 1⌋ + 1] ∧
    Range.size ⟨3, 0, 3⟩ = [0] ∧
    Range.size ⟨5, 1, 5⟩ = [1] ∧
    Range.size ⟨5, 0, 7⟩ = [0] :=
  ⟨(claim1_size ⟨2, 1, 5⟩).1 (by decide) (by decide),
   (claim1_size ⟨3, 0, 3⟩).2.1 (by decide) (by decide),
   (claim1_size ⟨5, 1, 5⟩).2.2.1 (by decide) (by decide),
   (claim1_size ⟨5, 0, 7⟩).2.2.2 (by decide) (by decide)⟩

-- ### Claim C2

/-- Claim C2: `forEach(callback)` invokes the callback on
`x = start + k*step` with zero-based index `k`, in increasing index
order, exactly while `x <= end` when `step > 0` and while `x >= end`
when `step < 0`; and when `step == 0` it performs zero invocations,
regardless of `start` and `end`. -/
theorem claim2_forEach {α : Type} (r : Range) (f : ℚ → ℕ → Range → α) :
    (r.step = 0 → r.forEach f = []) ∧
    (0 < r.step → ∃ n : ℕ,
      r.forEach f =
        (List.range n).map (fun k : ℕ => f (r.start + (k:ℚ) * r.step) k r) ∧
      (∀ k : ℕ, k < n → r.start + (k:ℚ) * r.step ≤ r.«end») ∧
      ¬ (r.start + (n:ℚ) * r.step ≤ r.«end»)) ∧
    (r.step < 0 → ∃ n : ℕ,
      r.forEach f =
        (List.range n).map (fun k : ℕ => f (r.start + (k:ℚ) * r.step) k r) ∧
      (∀ k : ℕ, k < n → r.«end» ≤ r.start + (k:ℚ) * r.step) ∧
      ¬ (r.«end» ≤ r.start + (n:ℚ) * r.step)) := by
  refine ⟨?_, ?_, ?_⟩
  · intro h0
    simp [Range.forEach, forEachCalls_zero r h0]
  · intro h
    refine ⟨(⌊(r.«end» - r.start) / r.step⌋ + 1).toNat, ?_,
      guard_holds_pos r h, guard_fails_pos r h⟩
    unfold Range.forEach
    rw [forEachCalls_pos r h, List.map_map]
    rfl
  · intro h
    refine ⟨(⌊(r.«end» - r.start) / r.step⌋ + 1).toNat, ?_,
      guard_holds_neg r h, guard_fails_neg r h⟩
    unfold Range.forEach
    rw [forEachCalls_neg r h, List.map_map]
    rfl

/-- Witness for Claim C2, at the ranges `1:0:1`, `2:1:5` and `2:-1:-2`,
one per case. -/
theorem claim2_forEach_witness :
    ((⟨1, 0, 1⟩ : Range).forEach (fun x i _ => (x, i)) = []) ∧
    (∃ n : ℕ,
      (⟨2, 1, 5⟩ : Range).forEach (fun x i _ => (x, i)) =
        (List.range n).map (fun k : ℕ => ((2:ℚ) + (k:ℚ) * 1, k)) ∧
      (∀ k : ℕ, k < n → (2:ℚ) + (k:ℚ) * 1 ≤ 5) ∧
      ¬ ((2:ℚ) + (n:ℚ) * 1 ≤ 5)) ∧
    (∃ n : ℕ,
      (⟨2, -1, -2⟩ : Range).forEach (fun x i _ => (x, i)) =
        (List.range n).map (fun k : ℕ => ((2:ℚ) + (k:ℚ) * (-1), k)) ∧
      (∀ k : ℕ, k < n → (-2:ℚ) ≤ (2:ℚ) + (k:ℚ) * (-1)) ∧
      ¬ ((-2:ℚ) ≤ (2:ℚ) + (n:ℚ) * (-1))) :=
  ⟨(claim2_forEach ⟨1, 0, 1⟩ (fun x i _ => (x, i))).1 rfl,
   (claim2_forEach ⟨2, 1, 5⟩ (fun x i _ => (x, i))).2.1 (by decide),
   (claim2_forEach ⟨2, -1, -2⟩ (fun x i _ => (x, i))).2.2 (by decide)⟩

-- ### Claim C3

/-- Claim C3: for every Range with `step > 0` and `start <= end`, both
`size()[0]` and `toArray().length` equal `floor((end - start)/step) + 1`;
and the analogous equality holds when `step < 0` and `start >= end`. -/
theorem claim3_size_toArray (r : Range) :
    (0 < r.step → r.start ≤ r.«end» →
      r.size = [⌊(r.«end» - r.start) / r.step⌋ + 1] ∧
      (r.toArray.length : ℤ) = ⌊(r.«end» - r.start) / r.step⌋ + 1) ∧
    (r.step < 0 → r.«end» ≤ r.start →
      r.size = [⌊(r.«end» - r.start) / r.step⌋ + 1] ∧
      (r.toArray.length : ℤ) = ⌊(r.«end» - r.start) / r.step⌋ + 1) := by
  constructor
  · intro h hle
    have hfl : (0:ℤ) ≤ ⌊(r.«end» - r.start) / r.step⌋ :=
      Int.floor_nonneg.mpr (div_nonneg (by linarith) h.le)
    constructor
    · by_cases hd : r.«end» - r.start = 0
      · rw [size_eq,
          if_neg (by rw [sign_of_pos h, hd, sign_of_zero]; norm_num),
          if_pos hd, hd]
        norm_num
      · have hdpos : 0 < r.«end» - r.start := lt_of_le_of_ne (by linarith) (Ne.symm hd)
        rw [size_eq, if_pos (by rw [sign_of_pos h, sign_of_pos hdpos]),
          if_neg (ne_of_gt h)]
    · unfold Range.toArray Range.forEach
      rw [forEachCalls_pos r h]
      simp only [List.length_map, List.length_range]
      exact Int.toNat_of_nonneg (by omega)
  · intro h hle
    have hfl : (0:ℤ) ≤ ⌊(r.«end» - r.start) / r.step⌋ :=
      Int.floor_nonneg.mpr (div_nonneg_of_both_nonpos (by linarith) h)
    constructor
    · by_cases hd : r.«end» - r.start = 0
      · rw [size_eq,
          if_neg (by rw [sign_of_neg h, hd, sign_of_zero]; norm_num),
          if_pos hd, hd]
        norm_num
      · have hdneg : r.«end» - r.start < 0 := lt_of_le_of_ne (by linarith) hd
        rw [size_eq, if_pos (by rw [sign_of_neg h, sign_of_neg hdneg]),
          if_neg (ne_of_lt h)]
    · unfold Range.toArray Range.forEach
      rw [forEachCalls_neg r h]
      simp only [List.length_map, List.length_range]
      exact Int.toNat_of_nonneg (by omega)

/-- Witness for Claim C3, at `2:1:5` (ascending) and `2:-1:-2`
(descending). -/
theorem claim3_size_toArray_witness :
    (Range.size ⟨2, 1, 5⟩ = [⌊((5:ℚ) - 2) / 1⌋ + 1] ∧
      ((⟨2, 1, 5⟩ : Range).toArray.length : ℤ) = ⌊((5:ℚ) - 2) / 1⌋ + 1) ∧
    (Range.size ⟨2, -1, -2⟩ = [⌊((-2:ℚ) - 2) / (-1)⌋ + 1] ∧
      ((⟨2, -1, -2⟩ : Range).toArray.length : ℤ) = ⌊((-2:ℚ) - 2) / (-1)⌋ + 1) :=
  ⟨(claim3_size_toArray ⟨2, 1, 5⟩).1 (by decide) (by decide),
   (claim3_size_toArray ⟨2, -1, -2⟩).2 (by decide) (by decide)⟩

-- ### Claim C8

/-- Claim C8: for every Range with numeric fields, `forEach` performs a
finite number of callback invocations — exactly
`(floor((end - start)/step) + 1).toNat` when `step ≠ 0` and none when
`step = 0` — and the traversal-based operations `toArray`, `map` and
`valueOf` all return sequences of that same finite length (the model is
total, so no invocation raises). -/
theorem claim8_finite {α : Type} (r : Range) (f : ℚ → ℕ → Range → α) :
    (r.forEach f).length =
      (if r.step = 0 then 0 else (⌊(r.«end» - r.start) / r.step⌋ + 1).toNat) ∧
    r.toArray.length = (r.forEach f).length ∧
    (r.map f).length = (r.forEach f).length ∧
    r.valueOf = r.toArray := by
  have hlen : ∀ {β : Type} (g : ℚ → ℕ → Range → β),
      (r.forEach g).length = r.forEachCalls.length := by
    intro β g
    simp [Range.forEach]
  refine ⟨?_, ?_, ?_, rfl⟩
  · rcases lt_trichotomy r.step 0 with h | h | h
    · rw [hlen, forEachCalls_neg r h, if_neg (ne_of_lt h)]
      simp
    · rw [hlen, forEachCalls_zero r h, if_pos h]
      rfl
    · rw [hlen, forEachCalls_pos r h, if_neg (ne_of_gt h)]
      simp
  · simp [Range.toArray, Range.forEach]
  · simp [Range.map, Range.forEach]

-- ### Claim C9

/-- Claim C9 is false as stated: for `step = 0` with `start = end` the
size computation yields `[0]` (NaN normalized), so `isScalar()` returns
false, not true. -/
theorem claim9_counterexample :
    (⟨2, 0, 2⟩ : Range).isScalar = false ∧
    (⟨2, 0, 2⟩ : Range).toScalar = none := by
  decide

/-- Claim C9 (amended): for every Range with `step == 0` and
`start == end`, `isScalar()` returns false and `toScalar()` returns
null: scalar classification (based on `size()`, which yields `[0]` after
NaN normalization) and scalar extraction (based on the empty
`toArray()`) agree that the Range is not a scalar. -/
theorem claim9_scalar (r : Range) (h0 : r.step = 0) (he : r.start = r.«end») :
    r.isScalar = false ∧ r.toScalar = none := by
  have hsize : r.size = [0] := by
    rw [size_eq, if_pos (by rw [h0, ← he, sub_self]), if_pos h0]
  constructor
  · rw [Range.isScalar, hsize]
    rfl
  · simp [Range.toScalar, Range.toArray, Range.forEach, forEachCalls_zero r h0]

/-- Witness for Claim C9's amended theorem, at the range `3:0:3`. -/
theorem claim9_scalar_witness :
    (⟨3, 0, 3⟩ : Range).isScalar = false ∧
    (⟨3, 0, 3⟩ : Range).toScalar = none :=
  claim9_scalar ⟨3, 0, 3⟩ rfl rfl

-- ### Claim C4

/-- Claim C4: `Range.parse` returns null for every non-string input; for
string input split on `:` into tokens, exactly 2 numeric (non-NaN)
tokens yield `Range(tokens[0], 1, tokens[1])`, exactly 3 numeric tokens
yield `Range(tokens[0], tokens[1], tokens[2])`, and any other token
count yields null. -/
theorem claim4_parse :
    (∀ v : JsValue, (∀ s, v ≠ .str s) → Range.parse v = none) ∧
    (∀ (s : List Char) (a b : JsNum),
      (splitOnColon s).map toNumber = [a, b] →
      a.isNaN = false → b.isNaN = false →
      Range.parse (.str s) = some ⟨a, .fin 1, b⟩) ∧
    (∀ (s : List Char) (a b c : JsNum),
      (splitOnColon s).map toNumber = [a, b, c] →
      a.isNaN = false → b.isNaN = false → c.isNaN = false →
      Range.parse (.str s) = some ⟨a, b, c⟩) ∧
    (∀ s : List Char,
      ((splitOnColon s).map toNumber).length ≠ 2 →
      ((splitOnColon s).map toNumber).length ≠ 3 →
      Range.parse (.str s) = none) := by
  refine ⟨?_, ?_, ?_, ?_⟩
  · intro v hv
    cases v with
    | str s => exact absurd rfl (hv s)
    | num n => rfl
    | boolean b => rfl
    | null => rfl
    | undefined => rfl
  · intro s a b hm ha hb
    simp only [Range.parse]
    rw [hm]
    simp [ha, hb, Range.ctor, JsValue.isNullish, isNumber, jsNumOf,
      Except.toOption]
  · intro s a b c hm ha hb hc
    simp only [Range.parse]
    rw [hm]
    simp [ha, hb, hc, Range.ctor, JsValue.isNullish, isNumber, jsNumOf,
      Except.toOption]
  · intro s h2 h3
    simp only [Range.parse]
    rcases hl : (splitOnColon s).map toNumber with _ | ⟨a, _ | ⟨b, _ | ⟨c, _ | ⟨d, t⟩⟩⟩⟩
    · simp
    · simp
    · rw [hl] at h2
      simp at h2
    · rw [hl] at h3
      simp at h3
    · split_ifs
      · rfl
      · rfl

/-- Witness for Claim C4, at a number input, the strings `"2:5"` and
`"1:2:3"`, and the four-token string `"1:2:3:4"`. -/
theorem claim4_parse_witness :
    Range.parse (.num (.fin 7)) = none ∧
    Range.parse (.str "2:5".toList) = some ⟨.fin 2, .fin 1, .fin 5⟩ ∧
    Range.parse (.str "1:2:3".toList) = some ⟨.fin 1, .fin 2, .fin 3⟩ ∧
    Range.parse (.str "1:2:3:4".toList) = none :=
  ⟨claim4_parse.1 (.num (.fin 7)) (fun s h => JsValue.noConfusion h),
   claim4_parse.2.1 ("2:5".toList) (.fin 2) (.fin 5) (by decide) rfl rfl,
   claim4_parse.2.2.1 ("1:2:3".toList) (.fin 1) (.fin 2) (.fin 3)
     (by decide) rfl rfl rfl,
   claim4_parse.2.2.2 ("1:2:3:4".toList) (by decide) (by decide)⟩

-- ### Claim C5

/-- Claim C5 is false as stated: `Range.parse` only rejects tokens that
convert to NaN (`isNaN`), not tokens that convert to a non-finite value;
the token `"Infinity"` converts to positive infinity, passes the NaN
check, and `parse("Infinity:5")` returns a Range with start = Infinity
rather than null. -/
theorem claim5_counterexample :
    Range.parse (.str "Infinity:5".toList) = some ⟨.posInf, .fin 1, .fin 5⟩ ∧
    Range.parse (.str "Infinity:5".toList) ≠ none := by
  decide

/-- Claim C5 (amended): for every string input in which some
colon-separated token converts to NaN, `parse` returns null; but a token
converting to a non-finite (infinite) value is accepted, and the Range
is built with the infinite field value: `parse("Infinity:5")` yields a
Range with start = +Infinity, step = 1, end = 5. -/
theorem claim5_nan_rejection :
    (∀ s : List Char,
      (∃ n ∈ (splitOnColon s).map toNumber, n.isNaN = true) →
      Range.parse (.str s) = none) ∧
    Range.parse (.str "Infinity:5".toList) = some ⟨.posInf, .fin 1, .fin 5⟩ := by
  constructor
  · intro s hex
    have hany : ((splitOnColon s).map toNumber).any (fun n => n.isNaN) = true := by
      rw [List.any_eq_true]
      simpa using hex
    simp only [Range.parse]
    rw [if_pos hany]
  · decide

/-- Witness for Claim C5's amended theorem, at the string `"abc:5"`,
whose first token converts to NaN. -/
theorem claim5_nan_rejection_witness :
    Range.parse (.str "abc:5".toList) = none :=
  claim5_nan_rejection.1 ("abc:5".toList) (by decide)

-- ### Claim C6

/-- Claim C6: constructing a Range with any provided (non-nullish)
start, step, or end argument that is not numeric raises a type error
identifying the offending parameter (checked in source order start, end,
step); with all-numeric or omitted arguments construction succeeds,
omitted arguments default to start = 0, step = 1, end = 0, and provided
numeric arguments are stored unchanged. -/
theorem claim6_ctor :
    (∀ start step «end» : JsValue,
      start.isNullish = false → isNumber start = false →
      Range.ctor start step «end» = .error "Parameter start must be a number") ∧
    (∀ start step «end» : JsValue,
      (start.isNullish = true ∨ isNumber start = true) →
      JsValue.isNullish «end» = false → isNumber «end» = false →
      Range.ctor start step «end» = .error "Parameter end must be a number") ∧
    (∀ start step «end» : JsValue,
      (start.isNullish = true ∨ isNumber start = true) →
      (JsValue.isNullish «end» = true ∨ isNumber «end» = true) →
      step.isNullish = false → isNumber step = false →
      Range.ctor start step «end» = .error "Parameter step must be a number") ∧
    (∀ start step «end» : JsValue,
      (start.isNullish = true ∨ isNumber start = true) →
      (step.isNullish = true ∨ isNumber step = true) →
      (JsValue.isNullish «end» = true ∨ isNumber «end» = true) →
      ∃ rj : RangeJs, Range.ctor start step «end» = .ok rj ∧
        (start.isNullish = true → rj.start = .fin 0) ∧
        (∀ n, start = .num n → rj.start = n) ∧
        (step.isNullish = true → rj.step = .fin 1) ∧
        (∀ n, step = .num n → rj.step = n) ∧
        (JsValue.isNullish «end» = true → rj.«end» = .fin 0) ∧
        (∀ n, «end» = .num n → rj.«end» = n)) := by
  refine ⟨?_, ?_, ?_, ?_⟩
  · intro s p e h1 h2
    simp [Range.ctor, h1, h2]
  · intro s p e hs h1 h2
    have hc : (!s.isNullish && !isNumber s) = false := by
      rcases hs with h | h <;> simp [h]
    simp [Range.ctor, hc, h1, h2]
  · intro s p e hs he h1 h2
    have hc1 : (!s.isNullish && !isNumber s) = false := by
      rcases hs with h | h <;> simp [h]
    have hc2 : (!JsValue.isNullish e && !isNumber e) = false := by
      rcases he with h | h <;> simp [h]
    simp [Range.ctor, hc1, hc2, h1, h2]
  · intro s p e hs hp he
    have hc1 : (!s.isNullish && !isNumber s) = false := by
      rcases hs with h | h <;> simp [h]
    have hc2 : (!JsValue.isNullish e && !isNumber e) = false := by
      rcases he with h | h <;> simp [h]
    have hc3 : (!p.isNullish && !isNumber p) = false := by
      rcases hp with h | h <;> simp [h]
    refine ⟨⟨if s.isNullish then .fin 0 else jsNumOf s,
      if p.isNullish then .fin 1 else jsNumOf p,
      if e.isNullish then .fin 0 else jsNumOf e⟩,
      by simp [Range.ctor, hc1, hc2, hc3], ?_, ?_, ?_, ?_, ?_, ?_⟩
    · intro h
      simp [h]
    · intro n h
      subst h
      simp [JsValue.isNullish, jsNumOf]
    · intro h
      simp [h]
    · intro n h
      subst h
      simp [JsValue.isNullish, jsNumOf]
    · intro h
      simp [h]
    · intro n h
      subst h
      simp [JsValue.isNullish, jsNumOf]

/-- Witness for Claim C6, covering each error case and the success case
with a provided start/end and an omitted step. -/
theorem claim6_ctor_witness :
    Range.ctor (.str []) .null .null = .error "Parameter start must be a number" ∧
    Range.ctor .null .null (.boolean true) = .error "Parameter end must be a number" ∧
    Range.ctor (.num (.fin 2)) (.str []) .null = .error "Parameter step must be a number" ∧
    (∃ rj : RangeJs, Range.ctor (.num (.fin 2)) .undefined (.num (.fin 5)) = .ok rj ∧
      (JsValue.isNullish (.num (.fin 2)) = true → rj.start = .fin 0) ∧
      (∀ n, JsValue.num (.fin 2) = .num n → rj.start = n) ∧
      (JsValue.isNullish .undefined = true → rj.step = .fin 1) ∧
      (∀ n, JsValue.undefined = .num n → rj.step = n) ∧
      (JsValue.isNullish (.num (.fin 5)) = true → rj.«end» = .fin 0) ∧
      (∀ n, JsValue.num (.fin 5) = .num n → rj.«end» = n)) :=
  ⟨claim6_ctor.1 (.str []) .null .null rfl rfl,
   claim6_ctor.2.1 .null .null (.boolean true) (Or.inl rfl) rfl rfl,
   claim6_ctor.2.2.1 (.num (.fin 2)) (.str []) .null (Or.inr rfl) (Or.inl rfl)
     rfl rfl,
   claim6_ctor.2.2.2 (.num (.fin 2)) .undefined (.num (.fin 5)) (Or.inr rfl)
     (Or.inl rfl) (Or.inr rfl)⟩

-- ### Claim C10

/-- Claim C10: empty colon-separated tokens convert to the number 0 and
parsing succeeds: `parse("2:")` yields a Range with start = 2, step = 1,
end = 0, and `parse(":")` yields a Range with start = 0, step = 1,
end = 0. -/
theorem claim10_empty_tokens :
    Range.parse (.str "2:".toList) = some ⟨.fin 2, .fin 1, .fin 0⟩ ∧
    Range.parse (.str ":".toList) = some ⟨.fin 0, .fin 1, .fin 0⟩ ∧
    toNumber [] = .fin 0 := by
  decide

-- ### Claim C7

lemma splitOnColon_no_colon (a : List Char) (h : ':' ∉ a) :
    splitOnColon a = [a] := by
  induction a with
  | nil => rfl
  | cons c t ih =>
    have hc : ¬ c = ':' := fun hh => h (hh ▸ List.mem_cons_self c t)
    have ht : ':' ∉ t := fun hh => h (List.mem_cons_of_mem c hh)
    simp only [splitOnColon, if_neg hc, ih ht]

lemma splitOnColon_append (a b : List Char) (h : ':' ∉ a) :
    splitOnColon (a ++ ':' :: b) = a :: splitOnColon b := by
  induction a with
  | nil => simp [splitOnColon]
  | cons c t ih =>
    have hc : ¬ c = ':' := fun hh => h (hh ▸ List.mem_cons_self c t)
    have ht : ':' ∉ t := fun hh => h (List.mem_cons_of_mem c hh)
    simp only [List.cons_append, splitOnColon, if_neg hc]
    rw [show List.append t (':' :: b) = t ++ ':' :: b from rfl, ih ht]

/-- Claim C7: `toString()` emits the formatted start, then
`':' + formattedStep` only when `step != 1`, then `':' + formattedEnd`;
and for every Range whose formatted numerals re-parse exactly to the
original field values (and contain no colon),
`Range.parse(range.toString()).toArray()` equals `range.toArray()`. -/
theorem claim7_roundtrip (r : Range)
    (h1 : toNumber (format r.start) = .fin r.start)
    (c1 : ':' ∉ format r.start)
    (h3 : toNumber (format r.«end») = .fin r.«end»)
    (c3 : ':' ∉ format r.«end»)
    (h2 : r.step ≠ 1 → toNumber (format r.step) = .fin r.step ∧ ':' ∉ format r.step) :
    ((Range.parse (.str r.toString)).bind RangeJs.toRange).map Range.toArray =
      some r.toArray ∧
    r.toString = format r.start ++
      (if r.step ≠ 1 then ':' :: format r.step else []) ++ ':' :: format r.«end» := by
  refine ⟨?_, rfl⟩
  by_cases hstep : r.step = 1
  · have hsplit : splitOnColon r.toString = [format r.start, format r.«end»] := by
      rw [Range.toString, if_neg (fun hh => hh hstep), List.append_nil,
        splitOnColon_append _ _ c1, splitOnColon_no_colon _ c3]
    simp only [Range.parse, hsplit, List.map_cons, List.map_nil, h1, h3]
    simp only [JsNum.isNaN, List.any_cons, List.any_nil, Bool.or_false,
      Bool.or_self, Bool.false_or, if_false, Bool.false_eq_true, ite_false]
    simp [Range.ctor, JsValue.isNullish, isNumber, jsNumOf, Except.toOption,
      RangeJs.toRange]
    rw [show (⟨r.start, 1, r.«end»⟩ : Range) = r by rw [← hstep]]
  · obtain ⟨h2a, h2b⟩ := h2 hstep
    have hsplit : splitOnColon r.toString =
        [format r.start, format r.step, format r.«end»] := by
      rw [Range.toString, if_pos hstep, List.append_assoc, List.cons_append,
        splitOnColon_append _ _ c1, splitOnColon_append _ _ h2b,
        splitOnColon_no_colon _ c3]
    simp only [Range.parse, hsplit, List.map_cons, List.map_nil, h1, h2a, h3]
    simp [JsNum.isNaN, Range.ctor, JsValue.isNullish, isNumber, jsNumOf,
      Except.toOption, RangeJs.toRange]

/-- Witness for Claim C7, at the ranges `2:1:5` (step omitted from the
text) and `0:2:6` (step included). -/
theorem claim7_roundtrip_witness :
    (((Range.parse (.str (⟨2, 1, 5⟩ : Range).toString)).bind RangeJs.toRange).map
        Range.toArray = some (⟨2, 1, 5⟩ : Range).toArray ∧
      (⟨2, 1, 5⟩ : Range).toString = format 2 ++
        (if (1:ℚ) ≠ 1 then ':' :: format 1 else []) ++ ':' :: format 5) ∧
    (((Range.parse (.str (⟨0, 2, 6⟩ : Range).toString)).bind RangeJs.toRange).map
        Range.toArray = some (⟨0, 2, 6⟩ : Range).toArray ∧
      (⟨0, 2, 6⟩ : Range).toString = format 0 ++
        (if (2:ℚ) ≠ 1 then ':' :: format 2 else []) ++ ':' :: format 6) :=
  ⟨claim7_roundtrip ⟨2, 1, 5⟩ (by decide) (by decide) (by decide) (by decide)
      (fun h => absurd rfl h),
   claim7_roundtrip ⟨0, 2, 6⟩ (by decide) (by decide) (by decide) (by decide)
      (fun _ => ⟨by decide, by decide⟩)⟩

end Mathjs

